import Mathlib

/-!
Verification development for the cosmos `Select` component
(option normalization, value resolution, change-event translation,
menu scroll handling, and render prop assembly).

The embedding mirrors the TypeScript source:
  - `cosmosToReactSelectOption/Options` embeds `cosmosToReactSelect.options`;
  - `resolveValue` embeds `cosmosToReactSelect.value`;
  - `oneOrMore` embeds the helper of the same name;
  - `selectOnChange` embeds the `onChange` closure built in `Select.render`;
  - `assembleProviderProps` / `renderSelect` embed `Select.render`'s
    prop assembly for the underlying react-select widget;
  - `menuStep` / `menuRun` embed `Select.handleScroll` and
    `Select.updateMenuState`.

Modelling conventions: JS strings stand in for the scalar values used as
option keys; `Option String` models a possibly-`undefined` string field;
caller-supplied functions (loaders, renderers) are modelled as opaque
handles or presence flags, since the core never inspects them.
-/

/-- Truthiness of a JS string-or-undefined value: `undefined`, `null` and
the empty string are falsy. -/
def truthyStr : Option String → Bool
  | some s => s ≠ ""
  | none => false

/-- JS `a || b` specialised to string-or-undefined operands: returns `a`
when `a` is truthy, otherwise `b` (whatever it is). -/
def jsOrStr (a b : Option String) : Option String :=
  if truthyStr a then a else b

/-- A caller (cosmos) option node: `{ value?, label?, text?, groupName?,
disabled?, items? }`.  A node carrying `items` is a group header with
nested children.  Fields other than the ones destructured by the
normalizer are abstracted to the `value` field, the one the default key
extractor reads. -/
inductive CallerOption : Type where
  | mk (value label text groupName : Option String) (disabled : Option Bool)
       (items : Option (List CallerOption))

/-- A react-select (canonical) option record: `{ isDisabled, label,
options?, value? }`.  `options` is present exactly on group nodes. -/
inductive RSOption : Type where
  | mk (isDisabled : Option Bool) (label : Option String)
       (options : Option (List RSOption)) (value : Option String)

/-- The `options` field of a canonical record. -/
def RSOption.options : RSOption → Option (List RSOption)
  | .mk _ _ o _ => o

/-- The `value` field of a canonical record. -/
def RSOption.value : RSOption → Option String
  | .mk _ _ _ v => v

/-- The `label` field of a canonical record. -/
def RSOption.label : RSOption → Option String
  | .mk _ l _ _ => l

/-- Source: `const defaultGetOptionValue = (option) => option.value`. -/
def defaultGetOptionValue (o : RSOption) : Option String :=
  o.value

/-- Source: `const matchValue = (option) => getOptionValue(option) ===
valueProp`, for a scalar raw value `s`. -/
def matchValue (g : RSOption → Option String) (s : String) (o : RSOption) : Bool :=
  g o == some s

mutual
/-- One step of `cosmosToReactSelect.options`: a caller node maps to
`{ isDisabled: disabled, label: groupName || label || text,
options: items ? recurse : undefined, ...otherProperties }`. -/
def cosmosToReactSelectOption : CallerOption → RSOption
  | .mk value label text groupName disabled items =>
      .mk disabled (jsOrStr groupName (jsOrStr label text))
        (match items with
         | none => none
         | some is => some (cosmosToReactSelectOptions is)) value

/-- Source: `cosmosToReactSelect.options`, the `cosmosOptions.map (...)`
over a caller option list. -/
def cosmosToReactSelectOptions : List CallerOption → List RSOption
  | [] => []
  | o :: rest => cosmosToReactSelectOption o :: cosmosToReactSelectOptions rest
end

/-- A raw caller-supplied value: JS `null`, `undefined`, a scalar, or an
array of raw values. -/
inductive RawValue : Type where
  | nullv
  | undefinedv
  | scalar (s : String)
  | arr (vs : List RawValue)

/-- The result of `cosmosToReactSelect.value`: JS `null`, `undefined`
(`Array.find` missed), one matched record, or an array of results. -/
inductive Resolved : Type where
  | nullv
  | undefinedv
  | found (o : RSOption)
  | arr (rs : List Resolved)

/-- Whether a resolution result is a sequence. -/
def Resolved.isSeq : Resolved → Bool
  | .arr _ => true
  | _ => false

/-- Source: the `options.forEach` loop of `cosmosToReactSelect.value`.
`valueFound` starts as `null` and is overwritten by every nested leaf
(one level deep, inside a node whose `options` field is an array) whose
extracted key equals the raw scalar; the loop never exits early. -/
def nestedScan (g : RSOption → Option String) (s : String)
    (opts : List RSOption) : Option RSOption :=
  opts.foldl
    (fun acc o =>
      match o.options with
      | some subs =>
          subs.foldl (fun acc2 so => if matchValue g s so then some so else acc2) acc
      | none => acc)
    none

mutual
/-- Source: `cosmosToReactSelect.value (valueProp, options,
getOptionValue)`.  `null`/`undefined` input returns `null`; an array
input maps resolution over its elements; a scalar input runs the nested
scan, then, if `valueFound` is still `null`, `options.find(matchValue)`
(whose miss is JS `undefined`). -/
def resolveValue (g : RSOption → Option String) (opts : List RSOption) :
    RawValue → Resolved
  | .nullv => .nullv
  | .undefinedv => .nullv
  | .arr vs => .arr (resolveValueList g opts vs)
  | .scalar s =>
      match nestedScan g s opts with
      | some valueFound => .found valueFound
      | none =>
          match opts.find? (matchValue g s) with
          | some o => .found o
          | none => .undefinedv

/-- Element-wise resolution of a raw array, `valueProp.map (item =>
cosmosToReactSelect.value (item, options, getOptionValue))`. -/
def resolveValueList (g : RSOption → Option String) (opts : List RSOption) :
    List RawValue → List Resolved
  | [] => []
  | v :: vs => resolveValue g opts v :: resolveValueList g opts vs
end

/-- The nested leaves the scan of `cosmosToReactSelect.value` visits, in
visit order: for each top-level node whose `options` field is an array,
its children, groups in order of appearance. -/
def nestedCandidates : List RSOption → List RSOption
  | [] => []
  | o :: rest =>
      (match o.options with
       | some subs => subs
       | none => []) ++ nestedCandidates rest

/-- The argument react-select passes to the facade's selection callback:
`null`, one record, or an array of records. -/
inductive WidgetSelection : Type where
  | nullv
  | one (o : RSOption)
  | many (os : List RSOption)

/-- The `value` placed in the emitted change event: `null`, one extracted
key, an array of extracted keys, or (async mode) the untouched widget
selection. -/
inductive EmittedValue : Type where
  | nullv
  | key (k : Option String)
  | keys (ks : List (Option String))
  | raw (sel : WidgetSelection)

/-- Source: `const oneOrMore = (options, getOptionValue) => ...`: `null`
stays `null`, an array maps the extractor over its elements, anything
else is passed to the extractor directly. -/
def oneOrMore (g : RSOption → Option String) : WidgetSelection → EmittedValue
  | .nullv => .nullv
  | .many os => .keys (os.map g)
  | .one o => .key (g o)

/-- The uniform event object `{ target: { name, value } }` handed to the
caller's `onChange`. -/
structure ChangeEvent : Type where
  name : Option String
  value : EmittedValue

/-- JS default-parameter semantics for `getOptionValue`: an `undefined`
caller extractor falls back to `defaultGetOptionValue`. -/
def effectiveExtractor (g? : Option (RSOption → Option String)) :
    RSOption → Option String :=
  match g? with
  | some g => g
  | none => defaultGetOptionValue

/-- Source: the `onChange` closure in `Select.render`.  In async mode the
widget selection is forwarded unchanged; otherwise it goes through
`oneOrMore (options, props.getOptionValue)`.  The caller's handler is
invoked only when present, modelled by returning `none`. -/
def selectOnChange (asyncMode : Bool)
    (g? : Option (RSOption → Option String)) (nm : Option String)
    (hasHandler : Bool) (sel : WidgetSelection) : Option ChangeEvent :=
  let newValue := if asyncMode then EmittedValue.raw sel
                  else oneOrMore (effectiveExtractor g?) sel
  if hasHandler then some ⟨nm, newValue⟩ else none

/-- The configuration surface of the `Select` facade (`ISelectProps`),
after `defaultProps` (`options: []`, `placeholder: ''`,
`searchable: false`) are applied.  Functions the core never inspects are
modelled as opaque handles (`loadOptions : Option Nat`) or presence
flags (`hasCustomOptionRenderer`, `hasCustomValueRenderer`,
`hasOnChange`). -/
structure SelectConfig : Type where
  id : Option String
  name : Option String
  options : List CallerOption
  value : RawValue
  defaultValue : RawValue
  hasError : Bool
  hasOnChange : Bool
  placeholder : String
  async : Bool
  disabled : Bool
  searchable : Bool
  multiple : Bool
  loading : Bool
  hasCustomOptionRenderer : Bool
  hasCustomValueRenderer : Bool
  loadOptions : Option Nat
  getOptionValue : Option (RSOption → Option String)
  noOptionsMessage : Option (Sum (Unit → String) String)
  defaultOptions : Option (List CallerOption)
  autoFocus : Bool
  cacheOptions : Bool
  defaultMenuOpen : Bool

/-- Source: the `noOptionsMessage` normalization in `Select.render`: a
falsy prop (absent or empty string) becomes `() => 'No options'`, a
function is kept, a truthy string `s` becomes `() => s`. -/
def normalizeNoOptionsMessage :
    Option (Sum (Unit → String) String) → Unit → String
  | some (.inl f) => f
  | some (.inr s) => if s = "" then (fun _ => "No options") else (fun _ => s)
  | none => fun _ => "No options"

/-- The `value` prop handed to the underlying widget: raw pass-through in
async mode, a resolution result otherwise. -/
inductive ProviderValue : Type where
  | raw (v : RawValue)
  | resolved (r : Resolved)

/-- Source: `key={value ? value.length : 0}`.  Falsy values (JS `null`,
`undefined`, the empty string) give `0`; an array gives its length; a
nonempty string its length; a single record has no `length` field, so
the key is JS `undefined` (`none`). -/
def providerKey : ProviderValue → Option Nat
  | .raw .nullv => some 0
  | .raw .undefinedv => some 0
  | .raw (.scalar s) => if s = "" then some 0 else some s.length
  | .raw (.arr vs) => some vs.length
  | .resolved .nullv => some 0
  | .resolved .undefinedv => some 0
  | .resolved (.found _) => none
  | .resolved (.arr rs) => some rs.length

/-- The props `Select.render` passes to the underlying widget
(`AsyncSelect` when async, `ReactSelect` otherwise), one field per JSX
attribute, in source order.  The style bundle is represented by the
`hasError` flag that determines it, and the component override table by
the two custom-renderer flags. -/
structure ProviderProps : Type where
  providerIsAsync : Bool
  onChange : WidgetSelection → Option ChangeEvent
  isClearable : Bool
  isDisabled : Bool
  isMulti : Bool
  isSearchable : Bool
  isLoading : Bool
  menuIsOpen : Bool
  defaultValue : RawValue
  getOptionValue : Option (RSOption → Option String)
  placeholder : String
  options : List RSOption
  loadOptions : Option Nat
  useCustomOptionComponent : Bool
  useCustomValueComponent : Bool
  noOptionsMessage : Unit → String
  defaultOptions : Option (List RSOption)
  autoFocus : Bool
  name : Option String
  value : ProviderValue
  stylesHasError : Bool
  renderKey : Option Nat
  id : Option String

/-- Source: the full-widget branch of `Select.render`.  `ctx` is the form
field id read from `Form.Field.ContextConsumer`
(`id={props.id || context.formFieldId}`). -/
def assembleProviderProps (cfg : SelectConfig) (ctx : Option String) :
    ProviderProps :=
  let options := cosmosToReactSelectOptions cfg.options
  let value : ProviderValue :=
    if cfg.async then .raw cfg.value
    else .resolved
      (resolveValue (effectiveExtractor cfg.getOptionValue) options cfg.value)
  { providerIsAsync := cfg.async
    onChange := selectOnChange cfg.async cfg.getOptionValue cfg.name cfg.hasOnChange
    isClearable := true
    isDisabled := cfg.disabled
    isMulti := cfg.multiple
    isSearchable := cfg.async || cfg.searchable
    isLoading := cfg.loading
    menuIsOpen := cfg.defaultMenuOpen
    defaultValue := cfg.defaultValue
    getOptionValue := cfg.getOptionValue
    placeholder := cfg.placeholder
    options := options
    loadOptions := cfg.loadOptions
    useCustomOptionComponent := cfg.hasCustomOptionRenderer
    useCustomValueComponent := cfg.hasCustomValueRenderer
    noOptionsMessage := normalizeNoOptionsMessage cfg.noOptionsMessage
    defaultOptions :=
      match cfg.defaultOptions with
      | some l => some (cosmosToReactSelectOptions l)
      | none => none
    autoFocus := cfg.autoFocus
    name := cfg.name
    value := value
    stylesHasError := cfg.hasError
    renderKey := providerKey value
    id := jsOrStr cfg.id ctx }

/-- The two shapes `Select.render` can return: the `SimpleSelect` fast
path with the props passed through, or the full widget bundle. -/
inductive RenderResult : Type where
  | simple (cfg : SelectConfig)
  | full (p : ProviderProps)

/-- Source: `Select.render`.  When none of async, searchable, multiple,
custom renderers or a custom extractor is requested, the props go to
`SimpleSelect` unchanged; otherwise the full widget is assembled. -/
def renderSelect (cfg : SelectConfig) (ctx : Option String) : RenderResult :=
  if !(cfg.async || cfg.searchable || cfg.multiple ||
       cfg.hasCustomOptionRenderer || cfg.hasCustomValueRenderer ||
       cfg.getOptionValue.isSome) then
    .simple cfg
  else
    .full (assembleProviderProps cfg ctx)

/-- The signals reaching the facade's menu controller: react-select's
`onMenuOpen` / `onMenuClose` callbacks and a captured document scroll. -/
inductive MenuEvent : Type where
  | menuOpen
  | menuClose
  | scroll

/-- One transition of the facade's menu state.  `updateMenuState` sets
`menuIsOpen`; `handleScroll` keeps the state and forces a reposition
(`forceUpdate`) exactly when the menu is open.  Result: (new state,
whether a reposition was triggered). -/
def menuStep (isOpen : Bool) : MenuEvent → Bool × Bool
  | .menuOpen => (true, false)
  | .menuClose => (false, false)
  | .scroll => (isOpen, isOpen)

/-- Runs a list of menu events from a state, counting repositions. -/
def menuRun (isOpen : Bool) : List MenuEvent → Bool × Nat
  | [] => (isOpen, 0)
  | e :: es =>
      let st := menuStep isOpen e
      let rest := menuRun st.1 es
      (rest.1, (if st.2 then 1 else 0) + rest.2)

/-- Source: `this.state = { menuIsOpen: props.defaultMenuOpen || false }`. -/
def initialMenuState (defaultMenuOpen : Bool) : Bool :=
  defaultMenuOpen

/-- The bare tree shape of an option node: leaf, or group with the shapes
of its children. -/
inductive Skel : Type where
  | node (children : Option (List Skel))

mutual
/-- The shape of a caller node (group iff it carries `items`). -/
def callerSkel : CallerOption → Skel
  | .mk _ _ _ _ _ none => .node none
  | .mk _ _ _ _ _ (some is) => .node (some (callerSkelList is))

/-- The shapes of a caller option list, in order. -/
def callerSkelList : List CallerOption → List Skel
  | [] => []
  | o :: rest => callerSkel o :: callerSkelList rest
end

mutual
/-- The shape of a canonical node (group iff it carries `options`). -/
def rsSkel : RSOption → Skel
  | .mk _ _ none _ => .node none
  | .mk _ _ (some subs) _ => .node (some (rsSkelList subs))

/-- The shapes of a canonical option list, in order. -/
def rsSkelList : List RSOption → List Skel
  | [] => []
  | o :: rest => rsSkel o :: rsSkelList rest
end

mutual
/-- Number of leaves in a shape (a group contributes its children's). -/
def skelLeafCount : Skel → Nat
  | .node none => 1
  | .node (some cs) => skelLeafCountList cs

/-- Total number of leaves of a list of shapes. -/
def skelLeafCountList : List Skel → Nat
  | [] => 0
  | s :: rest => skelLeafCount s + skelLeafCountList rest
end

mutual
/-- Nesting depth of a shape: a leaf has depth 1, a group one more than
its deepest child. -/
def skelDepth : Skel → Nat
  | .node none => 1
  | .node (some cs) => 1 + skelDepthList cs

/-- Maximum depth over a list of shapes (0 when empty). -/
def skelDepthList : List Skel → Nat
  | [] => 0
  | s :: rest => max (skelDepth s) (skelDepthList rest)
end

/-- The caller option tree of the spec scenario:
`[{value:"a",label:"A"},{groupName:"G",items:[{value:"b",label:"B"}]}]`. -/
def scnCallerOpts : List CallerOption :=
  [.mk (some "a") (some "A") none none none none,
   .mk none none none (some "G") none
     (some [.mk (some "b") (some "B") none none none none])]

/-- The canonical form of the scenario tree. -/
def scnOpts : List RSOption :=
  cosmosToReactSelectOptions scnCallerOpts

/-- The nested leaf `{value:"b",label:"B"}` of the scenario tree. -/
def scnLeafB : RSOption :=
  .mk none (some "B") none (some "b")

/-- The top-level leaf `{value:"a",label:"A"}` of the scenario tree. -/
def scnLeafA : RSOption :=
  .mk none (some "A") none (some "a")

/-- A nested leaf with key `"a"`, sitting in the first group of
`dupOpts`. -/
def dupLeafFirst : RSOption :=
  .mk none (some "A") none (some "a")

/-- A nested leaf that shares the key `"a"` but carries a different
label, sitting in the second group of `dupOpts`. -/
def dupLeafSecond : RSOption :=
  .mk none (some "B") none (some "a")

/-- A canonical tree whose two groups hold same-keyed leaves. -/
def dupOpts : List RSOption :=
  [.mk none (some "G1") (some [dupLeafFirst]) none,
   .mk none (some "G2") (some [dupLeafSecond]) none]

/-- A fully defaulted configuration used by the concrete scenarios. -/
def baseConfig : SelectConfig :=
  { id := none
    name := some "field"
    options := scnCallerOpts
    value := .nullv
    defaultValue := .nullv
    hasError := false
    hasOnChange := true
    placeholder := ""
    async := false
    disabled := false
    searchable := false
    multiple := false
    loading := false
    hasCustomOptionRenderer := false
    hasCustomValueRenderer := false
    loadOptions := none
    getOptionValue := none
    noOptionsMessage := none
    defaultOptions := none
    autoFocus := false
    cacheOptions := false
    defaultMenuOpen := false }

/-- A single-mode (`multiple = false`) configuration on the full-widget
path whose raw value is a one-element array. -/
def cfgShapeDemo : SelectConfig :=
  { baseConfig with searchable := true, value := .arr [.scalar "a"] }

/-- An async-mode configuration (async always takes the full path). -/
def cfgAsyncDemo : SelectConfig :=
  { baseConfig with async := true, loadOptions := some 0 }

/-- A sync full-path configuration with a change handler attached. -/
def cfgSyncDemo : SelectConfig :=
  { baseConfig with searchable := true }

/-- A leaf nested two levels deep, with the unique key `"c"`. -/
def deepLeaf : RSOption :=
  .mk none (some "C") none (some "c")

/-- A canonical tree whose only leaf sits two levels deep. -/
def deepOpts : List RSOption :=
  [.mk none (some "G") (some [.mk none (some "H") (some [deepLeaf]) none]) none]

/-- A left fold that overwrites its accumulator on every hit keeps the
last hit: it equals the first hit of the reversed list (or the initial
accumulator when there is none). -/
theorem foldl_overwrite {α : Type} (p : α → Bool) (l : List α) (init : Option α) :
    l.foldl (fun acc x => if p x then some x else acc) init
      = (l.reverse.find? p).or init := by
  induction l generalizing init with
  | nil => simp
  | cons a t ih =>
      rw [List.foldl_cons, ih, List.reverse_cons, List.find?_append]
      cases h : t.reverse.find? p <;> cases hpa : p a <;>
        simp [List.find?, hpa, Option.or]

/-- The two nested `forEach` loops of the scan walk exactly the
`nestedCandidates`, threading one overwrite accumulator through them. -/
theorem nestedScan_foldl (g : RSOption → Option String) (s : String) :
    ∀ (opts : List RSOption) (init : Option RSOption),
      opts.foldl
        (fun acc o =>
          match o.options with
          | some subs =>
              subs.foldl (fun acc2 so => if matchValue g s so then some so else acc2) acc
          | none => acc) init
      = (nestedCandidates opts).foldl
          (fun acc so => if matchValue g s so then some so else acc) init := by
  intro opts
  induction opts with
  | nil => intro init; rfl
  | cons o rest ih =>
      intro init
      rw [List.foldl_cons]
      cases h : o.options with
      | none => simp [nestedCandidates, h, ih]
      | some subs => simp [nestedCandidates, h, List.foldl_append, ih]

/-- The nested scan returns the last matching nested leaf in visit
order, i.e. the first match of the reversed candidate list. -/
theorem nestedScan_eq_find? (g : RSOption → Option String) (s : String)
    (opts : List RSOption) :
    nestedScan g s opts
      = (nestedCandidates opts).reverse.find? (matchValue g s) := by
  unfold nestedScan
  rw [nestedScan_foldl, foldl_overwrite, Option.or_none]

/-- A hit of the nested scan is a matching nested candidate. -/
theorem nestedScan_some {g : RSOption → Option String} {s : String}
    {opts : List RSOption} {m : RSOption}
    (h : nestedScan g s opts = some m) :
    m ∈ nestedCandidates opts ∧ matchValue g s m = true := by
  rw [nestedScan_eq_find?] at h
  exact ⟨List.mem_reverse.mp (List.mem_of_find?_eq_some h), List.find?_some h⟩

/-- A miss of the nested scan means no nested candidate matches. -/
theorem nestedScan_none {g : RSOption → Option String} {s : String}
    {opts : List RSOption} (h : nestedScan g s opts = none) :
    ∀ c ∈ nestedCandidates opts, ¬ matchValue g s c = true := by
  rw [nestedScan_eq_find?] at h
  intro c hc
  exact List.find?_eq_none.mp h c (List.mem_reverse.mpr hc)

/-- When a list holds exactly one element satisfying a predicate,
`find?` returns it. -/
theorem find?_of_unique {α : Type} (p : α → Bool) :
    ∀ (l : List α) (L : α), L ∈ l → p L = true →
      (∀ c ∈ l, p c = true → c = L) → l.find? p = some L := by
  intro l
  induction l with
  | nil => intro L h; cases h
  | cons a t ih =>
      intro L hmem hpL huniq
      by_cases hpa : p a = true
      · have ha : a = L := huniq a (List.mem_cons_self a t) hpa
        rw [List.find?_cons_of_pos _ hpa, ha]
      · rw [List.find?_cons_of_neg _ hpa]
        refine ih L ?_ hpL fun c hc hpc => huniq c (List.mem_cons_of_mem _ hc) hpc
        rcases List.mem_cons.mp hmem with h | h
        · exact absurd (h ▸ hpL) hpa
        · exact h

mutual
/-- Normalization maps a caller node to a canonical node of the same
shape. -/
theorem normSkel : ∀ (o : CallerOption),
    rsSkel (cosmosToReactSelectOption o) = callerSkel o
  | .mk v l t g d none => by
      simp [cosmosToReactSelectOption, rsSkel, callerSkel]
  | .mk v l t g d (some is) => by
      simp [cosmosToReactSelectOption, rsSkel, callerSkel]
      exact normSkelList is

/-- Normalization preserves the shapes of an option list pointwise. -/
theorem normSkelList : ∀ (ts : List CallerOption),
    rsSkelList (cosmosToReactSelectOptions ts) = callerSkelList ts
  | [] => by simp [cosmosToReactSelectOptions, rsSkelList, callerSkelList]
  | o :: rest => by
      simp [cosmosToReactSelectOptions, rsSkelList, callerSkelList]
      exact ⟨normSkel o, normSkelList rest⟩
end

/-- Normalization of a list is the elementwise map of one-node
normalization. -/
theorem cosmosToReactSelectOptions_eq_map :
    ∀ ts : List CallerOption,
      cosmosToReactSelectOptions ts = ts.map cosmosToReactSelectOption := by
  intro ts
  induction ts with
  | nil => rfl
  | cons o rest ih => simp [cosmosToReactSelectOptions, ih]

/-- C1 (counterexample): with `multiple = false` on the full-widget path,
a raw one-element array is still resolved element-wise, so the widget
receives a sequence although single mode was declared. -/
theorem resolver_ignores_multiple_flag_cex :
    ∃ p, renderSelect cfgShapeDemo none = .full p
      ∧ p.isMulti = false
      ∧ p.value = .resolved (.arr [.found scnLeafA]) := by
  exact ⟨assembleProviderProps cfgShapeDemo none, rfl, rfl, rfl⟩

/-- C1 (amended): the multiplicity of the resolver's output follows the
raw value's runtime shape — `null`/`undefined` give `null`, an array is
resolved element-wise, a scalar never yields a sequence — and the
computed widget value is independent of the `multiple` flag. -/
theorem resolver_multiplicity_shape_driven :
    (∀ (g : RSOption → Option String) (opts : List RSOption),
      resolveValue g opts .nullv = .nullv
      ∧ resolveValue g opts .undefinedv = .nullv
      ∧ (∀ vs, resolveValue g opts (.arr vs) = .arr (resolveValueList g opts vs))
      ∧ (∀ s, (resolveValue g opts (.scalar s)).isSeq = false))
    ∧ (∀ (cfg : SelectConfig) (ctx : Option String) (b : Bool),
        (assembleProviderProps { cfg with multiple := b } ctx).value
          = (assembleProviderProps cfg ctx).value) := by
  constructor
  · intro g opts
    refine ⟨rfl, rfl, fun vs => rfl, fun s => ?_⟩
    cases h : nestedScan g s opts with
    | some m => simp [resolveValue, h, Resolved.isSeq]
    | none =>
        cases h2 : opts.find? (matchValue g s) with
        | some o => simp [resolveValue, h, h2, Resolved.isSeq]
        | none => simp [resolveValue, h, h2, Resolved.isSeq]
  · intro cfg ctx b
    rfl

/-- C2 (counterexample): with two same-keyed leaves nested in different
groups, resolution returns the leaf of the later group, not the one
earlier in search order. -/
theorem nested_scan_first_match_cex :
    resolveValue defaultGetOptionValue dupOpts (.scalar "a") = .found dupLeafSecond
    ∧ resolveValue defaultGetOptionValue dupOpts (.scalar "a") ≠ .found dupLeafFirst := by
  constructor
  · rfl
  · intro hcontra
    have h2 : resolveValue defaultGetOptionValue dupOpts (.scalar "a")
        = .found dupLeafSecond := rfl
    rw [h2] at hcontra
    simp [dupLeafSecond, dupLeafFirst] at hcontra

/-- C2 (amended): the nested scan never exits early; it keeps
overwriting its accumulator, so the LAST leaf in search order whose
extracted key equals the raw scalar — the first match of the reversed
candidate list — is the resolved value. -/
theorem nested_scan_last_match_wins (g : RSOption → Option String)
    (opts : List RSOption) (s : String) (m : RSOption)
    (h : (nestedCandidates opts).reverse.find? (matchValue g s) = some m) :
    resolveValue g opts (.scalar s) = .found m := by
  have hs : nestedScan g s opts = some m := by rw [nestedScan_eq_find?, h]
  simp [resolveValue, hs]

/-- C2 (witness): on the duplicate-key tree the resolved value is the
second group's leaf. -/
theorem nested_scan_last_match_wins_witness :
    resolveValue defaultGetOptionValue dupOpts (.scalar "a") = .found dupLeafSecond := by
  exact nested_scan_last_match_wins defaultGetOptionValue dupOpts "a" dupLeafSecond rfl

/-- C3: the props assembled for the underlying widget are identical for
any two values of `cacheOptions`; the flag is declared and documented
but never forwarded, so it cannot affect loading behaviour. -/
theorem cache_options_not_forwarded :
    ∀ (cfg : SelectConfig) (ctx : Option String) (b : Bool),
      assembleProviderProps { cfg with cacheOptions := b } ctx
        = assembleProviderProps cfg ctx := by
  intro cfg ctx b
  rfl

/-- C4: when any nested candidate matches, resolution returns a nested
candidate (nested leaves win over top-level ones); the top-level list
decides only when no nested candidate matches, and then the first
top-level match is returned. -/
theorem nested_leaf_priority :
    ∀ (g : RSOption → Option String) (opts : List RSOption) (s : String),
      ((∃ c ∈ nestedCandidates opts, matchValue g s c = true) →
        ∃ m, resolveValue g opts (.scalar s) = .found m
          ∧ m ∈ nestedCandidates opts ∧ matchValue g s m = true)
      ∧ (∀ o, (∀ c ∈ nestedCandidates opts, ¬ matchValue g s c = true) →
          opts.find? (matchValue g s) = some o →
          resolveValue g opts (.scalar s) = .found o) := by
  intro g opts s
  constructor
  · rintro ⟨c, hc, hpc⟩
    cases h : nestedScan g s opts with
    | some m =>
        exact ⟨m, by simp [resolveValue, h], (nestedScan_some h).1, (nestedScan_some h).2⟩
    | none => exact absurd hpc (nestedScan_none h c hc)
  · intro o hnone hfind
    have h : nestedScan g s opts = none := by
      rw [nestedScan_eq_find?]
      apply List.find?_eq_none.mpr
      intro c hc
      exact hnone c (List.mem_reverse.mp hc)
    simp [resolveValue, h, hfind]

/-- C4 (witness): in the spec scenario tree the raw value `"b"` resolves
to a matching nested leaf. -/
theorem nested_leaf_priority_witness :
    ∃ m, resolveValue defaultGetOptionValue scnOpts (.scalar "b") = .found m
      ∧ m ∈ nestedCandidates scnOpts
      ∧ matchValue defaultGetOptionValue "b" m = true := by
  apply (nested_leaf_priority defaultGetOptionValue scnOpts "b").1
  refine ⟨scnLeafB, ?_, rfl⟩
  have h : nestedCandidates scnOpts = [scnLeafB] := rfl
  rw [h]
  exact List.mem_singleton.mpr rfl

/-- C5 (counterexample): in async mode the change handler forwards the
widget's raw record untouched instead of applying the key extractor. -/
theorem async_change_event_raw_cex :
    ∃ p, renderSelect cfgAsyncDemo none = .full p
      ∧ p.onChange (.one scnLeafB)
          = some ⟨some "field", .raw (.one scnLeafB)⟩
      ∧ EmittedValue.raw (.one scnLeafB) ≠ .key (defaultGetOptionValue scnLeafB) := by
  refine ⟨assembleProviderProps cfgAsyncDemo none, rfl, rfl, ?_⟩
  simp

/-- C5 (amended): in non-async mode, every selection event is emitted as
`{ target: { name, value } }` with `value` built by `oneOrMore` from
extracted keys: `null` stays `null`, one record maps to its extracted
key, a sequence maps to the ordered sequence of extracted keys.  (In
async mode the raw selection is passed through unchanged.) -/
theorem change_event_extracted_keys :
    ∀ (cfg : SelectConfig) (ctx : Option String) (p : ProviderProps),
      renderSelect cfg ctx = .full p → cfg.async = false → cfg.hasOnChange = true →
      (∀ sel, p.onChange sel
          = some ⟨cfg.name, oneOrMore (effectiveExtractor cfg.getOptionValue) sel⟩)
      ∧ oneOrMore (effectiveExtractor cfg.getOptionValue) .nullv = .nullv
      ∧ (∀ o, oneOrMore (effectiveExtractor cfg.getOptionValue) (.one o)
            = .key (effectiveExtractor cfg.getOptionValue o))
      ∧ (∀ os, oneOrMore (effectiveExtractor cfg.getOptionValue) (.many os)
            = .keys (os.map (effectiveExtractor cfg.getOptionValue))) := by
  intro cfg ctx p hr ha hh
  have hp : p = assembleProviderProps cfg ctx := by
    unfold renderSelect at hr
    split at hr
    · simp at hr
    · injection hr with h
      exact h.symm
  subst hp
  refine ⟨fun sel => ?_, rfl, fun o => rfl, fun os => rfl⟩
  simp [assembleProviderProps, selectOnChange, ha, hh]

/-- C5 (witness): a sync configuration emits the extracted key of the
selected record under the configured field name. -/
theorem change_event_extracted_keys_witness :
    (assembleProviderProps cfgSyncDemo none).onChange (.one scnLeafB)
      = some ⟨some "field", .key (some "b")⟩ := by
  have h := change_event_extracted_keys cfgSyncDemo none
    (assembleProviderProps cfgSyncDemo none) rfl rfl rfl
  rw [h.1 (.one scnLeafB)]
  rfl

/-- C6 (counterexample): `dupLeafFirst` is a nested leaf of `dupOpts`
with extracted key `"a"`, yet resolving `"a"` does not return it (the
same-keyed leaf of the later group wins); and the key of `deepLeaf`, a
leaf two levels deep, resolves to `undefined` although the leaf is in
the tree — so resolution does not round-trip on arbitrary trees. -/
theorem resolve_roundtrip_cex :
    (dupLeafFirst ∈ nestedCandidates dupOpts
      ∧ defaultGetOptionValue dupLeafFirst = some "a"
      ∧ resolveValue defaultGetOptionValue dupOpts (.scalar "a") ≠ .found dupLeafFirst)
    ∧ (defaultGetOptionValue deepLeaf = some "c"
      ∧ resolveValue defaultGetOptionValue deepOpts (.scalar "c") = .undefinedv) := by
  refine ⟨⟨?_, rfl, ?_⟩, rfl, rfl⟩
  · have h : nestedCandidates dupOpts = [dupLeafFirst, dupLeafSecond] := rfl
    rw [h]
    exact List.mem_cons_self _ _
  · intro hcontra
    have h2 : resolveValue defaultGetOptionValue dupOpts (.scalar "a")
        = .found dupLeafSecond := rfl
    rw [h2] at hcontra
    simp [dupLeafSecond, dupLeafFirst] at hcontra

/-- C6 (amended): resolution round-trips with key extraction for every
leaf the scan can reach (a top-level node or a leaf nested one level
deep) whose extracted key is defined and not shared by any other node
in the scan's range. -/
theorem resolve_roundtrip_unique_key :
    ∀ (g : RSOption → Option String) (opts : List RSOption) (L : RSOption) (k : String),
      g L = some k →
      (L ∈ nestedCandidates opts ∨ L ∈ opts) →
      (∀ c, (c ∈ nestedCandidates opts ∨ c ∈ opts) → g c = some k → c = L) →
      resolveValue g opts (.scalar k) = .found L := by
  intro g opts L k hk hmem huniq
  have hmL : matchValue g k L = true := by simp [matchValue, hk]
  cases h : nestedScan g k opts with
  | some m =>
      have hm := nestedScan_some h
      have hmt : m = L := huniq m (Or.inl hm.1) (by simpa [matchValue] using hm.2)
      rw [hmt] at h
      simp [resolveValue, h]
  | none =>
      have hnot := nestedScan_none h
      have hLtop : L ∈ opts := by
        cases hmem with
        | inl hnested => exact absurd hmL (hnot L hnested)
        | inr htop => exact htop
      have hfind : opts.find? (matchValue g k) = some L := by
        apply find?_of_unique (matchValue g k) opts L hLtop hmL
        intro c hc hpc
        exact huniq c (Or.inr hc) (by simpa [matchValue] using hpc)
      simp [resolveValue, h, hfind]

/-- C6 (witness): in the scenario tree, whose keys are unique, the
nested leaf's key resolves back to the leaf itself. -/
theorem resolve_roundtrip_unique_key_witness :
    resolveValue defaultGetOptionValue scnOpts (.scalar "b") = .found scnLeafB := by
  apply resolve_roundtrip_unique_key defaultGetOptionValue scnOpts scnLeafB "b" rfl
  · left
    have h : nestedCandidates scnOpts = [scnLeafB] := rfl
    rw [h]
    exact List.mem_singleton.mpr rfl
  · intro c hc hck
    have h1 : nestedCandidates scnOpts = [scnLeafB] := rfl
    have h2 : scnOpts = [scnLeafA, RSOption.mk none (some "G") (some [scnLeafB]) none] := rfl
    rcases hc with hn | ht
    · rw [h1] at hn
      exact List.mem_singleton.mp hn
    · rw [h2] at ht
      rcases List.mem_cons.mp ht with h | h
      · rw [h] at hck
        simp [scnLeafA, defaultGetOptionValue, RSOption.value] at hck
      · rw [List.mem_singleton.mp h] at hck
        simp [defaultGetOptionValue, RSOption.value] at hck

/-- C7: normalization is the elementwise image of the caller tree — no
node dropped, reordered or deduplicated — and it preserves the tree
shape, hence leaf count, nesting depth and length. -/
theorem normalize_structure_preserving :
    ∀ ts : List CallerOption,
      cosmosToReactSelectOptions ts = ts.map cosmosToReactSelectOption
      ∧ rsSkelList (cosmosToReactSelectOptions ts) = callerSkelList ts
      ∧ skelLeafCountList (rsSkelList (cosmosToReactSelectOptions ts))
          = skelLeafCountList (callerSkelList ts)
      ∧ skelDepthList (rsSkelList (cosmosToReactSelectOptions ts))
          = skelDepthList (callerSkelList ts)
      ∧ (cosmosToReactSelectOptions ts).length = ts.length := by
  intro ts
  have hmap := cosmosToReactSelectOptions_eq_map ts
  have hskel := normSkelList ts
  exact ⟨hmap, hskel, by rw [hskel], by rw [hskel],
    by rw [hmap, List.length_map]⟩

/-- C8: resolving a raw three-element sequence yields exactly the three
scalar resolutions in order, an empty raw sequence yields an empty
sequence, and a scalar matched by no node in the scan's range resolves
to `undefined` (retained, not dropped). -/
theorem multi_resolution_elementwise :
    ∀ (g : RSOption → Option String) (opts : List RSOption) (v1 v2 v3 : String),
      resolveValue g opts (.arr [.scalar v1, .scalar v2, .scalar v3])
        = .arr [resolveValue g opts (.scalar v1), resolveValue g opts (.scalar v2),
                resolveValue g opts (.scalar v3)]
      ∧ resolveValue g opts (.arr []) = .arr []
      ∧ (∀ s, (∀ c, (c ∈ nestedCandidates opts ∨ c ∈ opts) → ¬ matchValue g s c = true) →
          resolveValue g opts (.scalar s) = .undefinedv) := by
  intro g opts v1 v2 v3
  refine ⟨rfl, rfl, fun s hno => ?_⟩
  have h : nestedScan g s opts = none := by
    rw [nestedScan_eq_find?]
    apply List.find?_eq_none.mpr
    intro c hc
    exact hno c (Or.inl (List.mem_reverse.mp hc))
  have hf : opts.find? (matchValue g s) = none := by
    apply List.find?_eq_none.mpr
    intro c hc
    exact hno c (Or.inr hc)
  simp [resolveValue, h, hf]

/-- C8 (witness): in the scenario tree the unmatched scalar `"x"`
resolves to `undefined`. -/
theorem multi_resolution_elementwise_witness :
    resolveValue defaultGetOptionValue scnOpts (.scalar "x") = .undefinedv := by
  apply (multi_resolution_elementwise defaultGetOptionValue scnOpts "a" "x" "x").2.2
  intro c hc hmc
  have h1 : nestedCandidates scnOpts = [scnLeafB] := rfl
  have h2 : scnOpts = [scnLeafA, RSOption.mk none (some "G") (some [scnLeafB]) none] := rfl
  rcases hc with hn | ht
  · rw [h1] at hn
    rw [List.mem_singleton.mp hn] at hmc
    simp [matchValue, scnLeafB, defaultGetOptionValue, RSOption.value] at hmc
  · rw [h2] at ht
    rcases List.mem_cons.mp ht with h | h
    · rw [h] at hmc
      simp [matchValue, scnLeafA, defaultGetOptionValue, RSOption.value] at hmc
    · rw [List.mem_singleton.mp h] at hmc
      simp [matchValue, defaultGetOptionValue, RSOption.value] at hmc

/-- C9: a scroll step triggers a reposition exactly when the menu state
is open, open/close signals never trigger one, and the event sequence
open, scroll, scroll, close, scroll triggers exactly two repositions
from any initial state. -/
theorem menu_reposition_only_while_open :
    (∀ b : Bool, (menuStep b .scroll).2 = b)
    ∧ (∀ b : Bool, (menuStep b .menuOpen).2 = false ∧ (menuStep b .menuClose).2 = false)
    ∧ (∀ b : Bool,
        (menuRun b [.menuOpen, .scroll, .scroll, .menuClose, .scroll]).2 = 2) := by
  refine ⟨fun b => rfl, fun b => ⟨rfl, rfl⟩, fun b => ?_⟩
  cases b <;> rfl

/-- C10: on the full-widget path, the searchable input handed to the
underlying widget is the disjunction of the async and searchable flags,
so async mode always renders searchable. -/
theorem async_forces_searchable :
    ∀ (cfg : SelectConfig) (ctx : Option String) (p : ProviderProps),
      renderSelect cfg ctx = .full p →
      p.isSearchable = (cfg.async || cfg.searchable)
      ∧ (cfg.async = true → p.isSearchable = true) := by
  intro cfg ctx p hr
  have hp : p = assembleProviderProps cfg ctx := by
    unfold renderSelect at hr
    split at hr
    · simp at hr
    · injection hr with h
      exact h.symm
  subst hp
  refine ⟨rfl, fun ha => ?_⟩
  simp [assembleProviderProps, ha]

/-- C10 (witness): an async configuration with `searchable = false`
still renders the widget searchable. -/
theorem async_forces_searchable_witness :
    (assembleProviderProps cfgAsyncDemo none).isSearchable = true := by
  have h := async_forces_searchable cfgAsyncDemo none
    (assembleProviderProps cfgAsyncDemo none) rfl
  exact h.2 rfl
